import Mathlib

/-!
Shallow embedding of `pkg/cmd/template/cmd.go` from the ytt repository.

The file under verification is the template-command pipeline:
`TemplateOptions.RunWithFiles`, `TemplateOptions.pickSource` and
`TemplateOptions.inspectFiles`.  The packages it calls into
(`workspace`, `yamlmeta`, the flag structs) are not part of the source
tree given here, so their operations are modelled as an explicit
environment of pure functions (`Env`), except where a claim depends on
their behaviour, in which case they are modelled from the spec and
marked as such in their doc comments.
-/

namespace Ytt

/-- Errors are opaque values; Go `error` is modelled by a string message. -/
abbrev Err := String

/-- A file as seen by this pipeline: `files.File` exposes `RelativePath()`
(used by `inspectFiles`).  `SchemaDocId` models the file-marks/role
information consumed by the (out-of-src) `workspace` package: `some d`
means the file carries the schema document `d` at the root scope. -/
structure File where
  RelativePath : String
  SchemaDocId : Option Nat := none
  deriving Repr, DecidableEq

/-- A schema document (`yamlmeta.Document` holding schema content), abstract. -/
abbrev SchemaDoc := Nat

/-- Result of `yamlmeta.NewDocumentSchema`, abstract. -/
abbrev TypedSchema := Nat

/-- Model of `yamlmeta.Schema`: either the permissive `AnySchema` or a typed document schema. -/
inductive Schema where
  | anySchema : Schema
  | typed : TypedSchema → Schema
  deriving Repr, DecidableEq

/-- Minimal model of a `yamlmeta` value tree (enough for the file listing). -/
inductive Value where
  | scalar : String → Value
  | array : List Value → Value
  deriving Repr

/-- Model of `yamlmeta.Document`. -/
structure Document where
  value : Value
  deriving Repr

/-- Model of `yamlmeta.DocumentSet`. -/
structure DocumentSet where
  items : List Document
  deriving Repr

/-- Model of `files.OutputFile`, abstract: a path and rendered content. -/
structure OutputFile where
  path : String
  content : String
  deriving Repr, DecidableEq

/-- A data-values overlay parsed from flags (abstract). -/
abbrev DVOverlay := Nat

/-- A per-library values overlay / library-contributed value (abstract). -/
abbrev LibraryOverlay := Nat

/-- The resolved values block returned by `LibraryLoader.Values`; `Doc` is
the resolved values document. -/
structure ValuesBlock where
  Doc : Document
  deriving Repr

/-- Model of `workspace.EvalResult`: output files plus a document set. -/
structure EvalResult where
  Files : List OutputFile
  DocSet : DocumentSet
  deriving Repr

/-- Model of `TemplateOutput` from cmd.go: `Files` defaults to nil, `DocSet` and
`Err` are nilable pointers, modelled with `Option`. -/
structure TemplateOutput where
  Files : List OutputFile := []
  DocSet : Option DocumentSet := none
  Err : Option Err := none
  deriving Repr

/-- Model of `DataValuesFlags`: only the `Inspect` field is read by cmd.go itself;
the flag contents are abstracted into `Env.asOverlays`. -/
structure DataValuesFlags where
  Inspect : Bool := false
  deriving Repr, DecidableEq

/-- Model of `TemplateOptions` from cmd.go (the file-source and file-marks option
structs are abstracted into `Env`). -/
structure TemplateOptions where
  IgnoreUnknownComments : Bool := false
  ImplicitMapKeyOverrides : Bool := false
  StrictYAML : Bool := false
  Debug : Bool := false
  InspectFiles : Bool := false
  SchemaEnabled : Bool := false
  DataValuesFlags : DataValuesFlags := {}
  deriving Repr, DecidableEq

/-- Model of `workspace.TemplateLoaderOpts` built at cmd.go lines 121-125. -/
structure TemplateLoaderOpts where
  IgnoreUnknownComments : Bool
  ImplicitMapKeyOverrides : Bool
  StrictYAML : Bool
  deriving Repr, DecidableEq

/-- The loader options cmd.go derives from the template options. -/
def loaderOpts (o : TemplateOptions) : TemplateLoaderOpts :=
  { IgnoreUnknownComments := o.IgnoreUnknownComments
    ImplicitMapKeyOverrides := o.ImplicitMapKeyOverrides
    StrictYAML := o.StrictYAML }

/-- The environment of operations cmd.go calls into but whose code lives
outside the given source tree.  Each is a pure function; fallible Go
calls return `Except`.
  * `fileMarksApply` models `FileMarksOpts.Apply`;
  * `asOverlays` models `DataValuesFlags.AsOverlays(strict)`;
  * `schemas` models `libraryLoader.Schemas()` (the loader is built from
    the loader opts and the root library, itself built from the files);
  * `newDocumentSchema` models `yamlmeta.NewDocumentSchema`;
  * `valuesFn` models `libraryLoader.Values(overlays, schema)`;
  * `evalFn` models `libraryLoader.Eval(values, libraryValues)`. -/
structure Env where
  fileMarksApply : List File → Except Err (List File)
  asOverlays : Bool → Except Err (List DVOverlay × List LibraryOverlay)
  schemas : TemplateLoaderOpts → List File → Except Err (List SchemaDoc)
  newDocumentSchema : SchemaDoc → Except Err TypedSchema
  valuesFn : TemplateLoaderOpts → List File → List DVOverlay → Schema →
    Except Err (ValuesBlock × List LibraryOverlay)
  evalFn : TemplateLoaderOpts → List File → ValuesBlock → List LibraryOverlay →
    Except Err EvalResult

/-- The warning emitted at cmd.go line 142. -/
def schemaWarningText : String :=
  "Warning: schema document was detected, but schema experiment flag is not enabled. Did you mean to include --enable-experiment-schema?\n"

/-- The error built at cmd.go lines 146-148. -/
def missingSchemaText : String :=
  "Schema experiment flag was enabled but no schema document was provided."

/-- Modelled from the spec: `workspace.Library.ListAccessibleFiles` is not
under src.  The spec (Result Assembler, Files-Inspect) says the listing
holds "every file reachable from the root library"; the root library is
built from the full input file list, so every input file is reachable. -/
def ListAccessibleFiles (fs : List File) : List File := fs

/-- The total order on files used by the listing: lexicographic on the
relative path. -/
def fileLE (a b : File) : Prop := a.RelativePath ≤ b.RelativePath

instance : DecidableRel fileLE :=
  fun a b => inferInstanceAs (Decidable (a.RelativePath ≤ b.RelativePath))

instance : IsTotal File fileLE :=
  ⟨fun a b => le_total a.RelativePath b.RelativePath⟩

instance : IsTrans File fileLE :=
  ⟨fun _ _ _ => le_trans⟩

/-- Modelled from the spec: `workspace.SortFilesInLibrary` is not under
src.  The spec says the listing is "sorted by a defined total order
(e.g., lexicographic on full path)"; we sort lexicographically on the
file's relative path. -/
def SortFilesInLibrary (fs : List File) : List File :=
  fs.insertionSort fileLE

/-- Modelled from the spec: `workspace.LibraryLoader.Schemas` is not under
src.  Spec §3 invariant: "Exactly zero or one schema document may exist
at the root scope; more than one is a configuration error."  It collects
the schema documents carried by the files and fails when more than one
exists. -/
def Schemas (fs : List File) : Except Err (List SchemaDoc) :=
  let docs := fs.filterMap (fun f => f.SchemaDocId)
  if 1 < docs.length then
    Except.error "multiple schema documents found at the root scope"
  else
    Except.ok docs

/-- cmd.go lines 183-199 (`inspectFiles`): list accessible files, sort
them, and wrap the relative paths into a single document holding an array. -/
def inspectFilesRun (rootFiles : List File) : TemplateOutput :=
  let fs := SortFilesInLibrary (ListAccessibleFiles rootFiles)
  let paths := Value.array (fs.map (fun f => Value.scalar f.RelativePath))
  { DocSet := some { items := [{ value := paths }] } }

/-- cmd.go lines 134-150: the schema gate.  Starting from `AnySchema`:
a present document with the flag enabled is built into a typed schema
(propagating the construction error); present without the flag warns and
keeps `AnySchema`; absent with the flag enabled is a fatal configuration
error; absent without the flag is a silent no-op.  Returns the schema to
use plus the warnings emitted. -/
def schemaGate (newDocumentSchemaFn : SchemaDoc → Except Err TypedSchema)
    (schemaEnabled : Bool) (schemaDocs : List SchemaDoc) :
    Except Err (Schema × List String) :=
  match schemaDocs with
  | d :: _ =>
    if schemaEnabled then
      match newDocumentSchemaFn d with
      | Except.error e => Except.error e
      | Except.ok ts => Except.ok (Schema.typed ts, [])
    else
      Except.ok (Schema.anySchema, [schemaWarningText])
  | [] =>
    if schemaEnabled then Except.error missingSchemaText
    else Except.ok (Schema.anySchema, [])

/-- cmd.go lines 152-171: the tail of `RunWithFiles` once the schema is
settled — resolve values, append the flag-parsed library overlays after
the scope-derived library values, honour the data-values inspect mode,
otherwise evaluate. -/
def afterSchema (env : Env) (o : TemplateOptions) (fs : List File)
    (valuesOverlays : List DVOverlay) (libraryValuesOverlays : List LibraryOverlay)
    (schema : Schema) : TemplateOutput :=
  match env.valuesFn (loaderOpts o) fs valuesOverlays schema with
  | Except.error e => { Err := some e }
  | Except.ok (values, libraryValues0) =>
    let libraryValues := libraryValues0 ++ libraryValuesOverlays
    if o.DataValuesFlags.Inspect then
      { DocSet := some { items := [values.Doc] } }
    else
      match env.evalFn (loaderOpts o) fs values libraryValues with
      | Except.error e => { Err := some e }
      | Except.ok result => { Files := result.Files, DocSet := some result.DocSet }

/-- cmd.go lines 101-172 (`RunWithFiles`).  Returns the `TemplateOutput`
together with the list of warnings printed to the UI. -/
def RunWithFiles (env : Env) (o : TemplateOptions) (inFiles : List File) :
    TemplateOutput × List String :=
  match env.fileMarksApply inFiles with
  | Except.error e => ({ Err := some e }, [])
  | Except.ok fs =>
    if o.InspectFiles then
      (inspectFilesRun fs, [])
    else
      match env.asOverlays o.StrictYAML with
      | Except.error e => ({ Err := some e }, [])
      | Except.ok (valuesOverlays, libraryValuesOverlays) =>
        match env.schemas (loaderOpts o) fs with
        | Except.error e => ({ Err := some e }, [])
        | Except.ok schemaDocs =>
          match schemaGate env.newDocumentSchema o.SchemaEnabled schemaDocs with
          | Except.error e => ({ Err := some e }, [])
          | Except.ok (schema, warns) =>
            (afterSchema env o fs valuesOverlays libraryValuesOverlays schema, warns)

/-- A file source as selected by `pickSource`: the `FileSource` interface
exposes `HasInput`/`HasOutput` capability predicates. -/
structure FileSourceModel where
  HasInput : Bool
  HasOutput : Bool
  deriving Repr, DecidableEq

/-- cmd.go lines 174-181 (`pickSource`): return the first source the
predicate accepts, else the last source (Go indexes `srcs[len(srcs)-1]`,
which panics on an empty slice; the empty case is modelled as `none`). -/
def pickSource (srcs : List FileSourceModel) (pickFunc : FileSourceModel → Bool) :
    Option FileSourceModel :=
  match srcs.find? pickFunc with
  | some src => some src
  | none => srcs.getLast?

/-- The three output modes of the Result Assembler, as selected by the
branch structure of `RunWithFiles` (cmd.go lines 112 and 158). -/
inductive Mode where
  | normal
  | valuesInspect
  | filesInspect
  deriving Repr, DecidableEq

/-- The mode active for a given configuration: the files-inspect branch is
tested first (line 112), then the data-values inspect branch (line 158). -/
def activeMode (o : TemplateOptions) : Mode :=
  if o.InspectFiles then Mode.filesInspect
  else if o.DataValuesFlags.Inspect then Mode.valuesInspect
  else Mode.normal

/-! ### Concrete fixtures used by the witness theorems -/

/-- A plain template file. -/
def fileA : File := { RelativePath := "b.yml" }

/-- A file carrying a schema document. -/
def fileB : File := { RelativePath := "a.yml", SchemaDocId := some 5 }

/-- A second file carrying a schema document. -/
def fileC : File := { RelativePath := "c.yml", SchemaDocId := some 9 }

/-- An environment in which every external call succeeds and the schema
list is the spec-modelled `Schemas`. -/
def envW : Env :=
  { fileMarksApply := fun fs => Except.ok fs
    asOverlays := fun _ => Except.ok ([1], [7, 8])
    schemas := fun _ fs => Schemas fs
    newDocumentSchema := fun d => Except.ok d
    valuesFn := fun _ _ _ _ => Except.ok ({ Doc := { value := Value.scalar "vals" } }, [3, 4])
    evalFn := fun _ _ _ _ =>
      Except.ok { Files := [{ path := "out.yml", content := "rendered" }]
                  DocSet := { items := [] } } }

/-! ### Helper lemmas -/

/-- Lemma: `find?` returns the element at the first index where the predicate holds. -/
theorem find_first_index (p : FileSourceModel → Bool) :
    ∀ (l : List FileSourceModel) (i : Nat) (hi : i < l.length),
      p (l.get ⟨i, hi⟩) = true →
      (∀ j (hj : j < i), p (l.get ⟨j, Nat.lt_trans hj hi⟩) = false) →
      l.find? p = some (l.get ⟨i, hi⟩) := by
  intro l
  induction l with
  | nil => intro i hi; exact absurd hi (Nat.not_lt_zero i)
  | cons a t ih =>
    intro i hi hp hbefore
    cases i with
    | zero =>
      simp only [List.get] at hp ⊢
      simp [List.find?, hp]
    | succ k =>
      have ha : p a = false := hbefore 0 (Nat.succ_pos k)
      simp only [List.get] at hp ⊢
      have := ih k (Nat.lt_of_succ_lt_succ hi) hp
        (fun j hj => hbefore (j + 1) (Nat.succ_lt_succ hj))
      simp [List.find?, ha, this]

/-! ### Claim theorems -/

/-- C6: for every non-empty list of file sources and every predicate,
`pickSource` returns the first source in list order for which the
predicate holds, and when the predicate holds for no source it returns
the last source in the list. -/
theorem pickSource_first_else_last (srcs : List FileSourceModel)
    (p : FileSourceModel → Bool) (hne : srcs ≠ []) :
    (∀ i (hi : i < srcs.length), p (srcs.get ⟨i, hi⟩) = true →
      (∀ j (hj : j < i), p (srcs.get ⟨j, Nat.lt_trans hj hi⟩) = false) →
      pickSource srcs p = some (srcs.get ⟨i, hi⟩)) ∧
    ((∀ s ∈ srcs, p s = false) → pickSource srcs p = some (srcs.getLast hne)) := by
  constructor
  · intro i hi hp hbefore
    unfold pickSource
    rw [find_first_index p srcs i hi hp hbefore]
  · intro hnone
    unfold pickSource
    have hfind : srcs.find? p = none := by
      rw [List.find?_eq_none]
      intro s hs
      simp [hnone s hs]
    rw [hfind, List.getLast?_eq_getLast srcs hne]

/-- Witness for C6: on two sources where only the second has input, the
first-match case picks it; on a predicate that always fails, the last
source is picked. -/
theorem pickSource_first_else_last_witness :
    pickSource [⟨false, true⟩, ⟨true, false⟩] (fun s => s.HasInput) =
        some ⟨true, false⟩ ∧
      pickSource [⟨false, true⟩, ⟨true, false⟩] (fun s => s.HasOutput && s.HasInput) =
        some ⟨true, false⟩ := by
  constructor
  · exact (pickSource_first_else_last [⟨false, true⟩, ⟨true, false⟩]
      (fun s => s.HasInput) (by simp)).1 1 (by decide) (by decide)
      (fun j hj => by cases j with | zero => rfl | succ n => omega)
  · exact (pickSource_first_else_last [⟨false, true⟩, ⟨true, false⟩]
      (fun s => s.HasOutput && s.HasInput) (by simp)).2 (by decide)

/-- C8: the pipeline is deterministic — two runs of `RunWithFiles` on
identical inputs (same environment of external operations, same options,
same files) produce identical outputs. -/
theorem runWithFiles_deterministic (env : Env) (o : TemplateOptions)
    (inFiles : List File) (out₁ out₂ : TemplateOutput × List String)
    (h₁ : RunWithFiles env o inFiles = out₁)
    (h₂ : RunWithFiles env o inFiles = out₂) : out₁ = out₂ := by
  rw [← h₁, ← h₂]

/-- Witness for C8: two runs on a concrete input agree. -/
theorem runWithFiles_deterministic_witness :
    RunWithFiles envW {} [fileA] = RunWithFiles envW {} [fileA] := by
  exact runWithFiles_deterministic envW {} [fileA] _ _ rfl rfl

/-- C1: the schema gate behaves exactly as the four-case matrix over
(schema document present at root × SchemaEnabled flag): present+enabled
builds a typed schema from the first document and uses it (propagating
its construction error); present+disabled emits the warning and uses the
permissive `AnySchema`; absent+enabled fails the run with the
configuration error; absent+disabled silently uses `AnySchema`. -/
theorem schema_gate_matrix (env : Env) (o : TemplateOptions)
    (inFiles fs : List File) (vo : List DVOverlay) (lvo : List LibraryOverlay)
    (docs : List SchemaDoc)
    (hmarks : env.fileMarksApply inFiles = Except.ok fs)
    (hins : o.InspectFiles = false)
    (hov : env.asOverlays o.StrictYAML = Except.ok (vo, lvo))
    (hs : env.schemas (loaderOpts o) fs = Except.ok docs) :
    (∀ d rest, docs = d :: rest → o.SchemaEnabled = true →
      RunWithFiles env o inFiles =
        ((match env.newDocumentSchema d with
          | Except.error e => { Err := some e }
          | Except.ok ts => afterSchema env o fs vo lvo (Schema.typed ts)), [])) ∧
    (∀ d rest, docs = d :: rest → o.SchemaEnabled = false →
      RunWithFiles env o inFiles =
        (afterSchema env o fs vo lvo Schema.anySchema, [schemaWarningText])) ∧
    (docs = [] → o.SchemaEnabled = true →
      RunWithFiles env o inFiles = ({ Err := some missingSchemaText }, [])) ∧
    (docs = [] → o.SchemaEnabled = false →
      RunWithFiles env o inFiles = (afterSchema env o fs vo lvo Schema.anySchema, [])) := by
  refine ⟨?_, ?_, ?_, ?_⟩
  · intro d rest hd he
    subst hd
    simp only [RunWithFiles, hmarks, hins, hov, hs, schemaGate, he, if_true,
      Bool.false_eq_true, if_false]
    cases env.newDocumentSchema d <;> rfl
  · intro d rest hd he
    subst hd
    simp [RunWithFiles, hmarks, hins, hov, hs, schemaGate, he]
  · intro hd he
    subst hd
    simp [RunWithFiles, hmarks, hins, hov, hs, schemaGate, he]
  · intro hd he
    subst hd
    simp [RunWithFiles, hmarks, hins, hov, hs, schemaGate, he]

/-- Witness for C1: a schema document present with the flag disabled
yields the warn-and-ignore case on a concrete run. -/
theorem schema_gate_matrix_witness :
    RunWithFiles envW {} [fileB] =
      (afterSchema envW {} [fileB] [1] [7, 8] Schema.anySchema, [schemaWarningText]) := by
  exact (schema_gate_matrix envW {} [fileB] [fileB] [1] [7, 8] [5]
    rfl rfl rfl rfl).2.1 5 [] rfl rfl

/-- C2: in files-inspect mode the template evaluator is never invoked
(the run's output does not depend on `evalFn` at all), the output is the
successful single-document listing, its error field is empty, the listed
entries are the files' relative paths in sorted order, and the sorted
listing is a permutation of the (post-marks) input files. -/
theorem files_inspect_mode (env : Env) (o : TemplateOptions)
    (inFiles fs : List File)
    (hmarks : env.fileMarksApply inFiles = Except.ok fs)
    (hins : o.InspectFiles = true) :
    RunWithFiles env o inFiles = (inspectFilesRun fs, []) ∧
    (∀ g, RunWithFiles { env with evalFn := g } o inFiles =
      RunWithFiles env o inFiles) ∧
    (RunWithFiles env o inFiles).1.Err = none ∧
    (RunWithFiles env o inFiles).1.DocSet =
      some ⟨[⟨Value.array
        ((SortFilesInLibrary fs).map (fun f => Value.scalar f.RelativePath))⟩]⟩ ∧
    List.Sorted (· ≤ ·) ((SortFilesInLibrary fs).map (fun f => f.RelativePath)) ∧
    List.Perm (SortFilesInLibrary fs) fs := by
  have hrun : RunWithFiles env o inFiles = (inspectFilesRun fs, []) := by
    simp [RunWithFiles, hmarks, hins]
  refine ⟨hrun, ?_, ?_, ?_, ?_, ?_⟩
  · intro g
    simp [RunWithFiles, hmarks, hins]
  · rw [hrun]; rfl
  · rw [hrun]; rfl
  · have hsorted : List.Pairwise fileLE (SortFilesInLibrary fs) :=
      List.sorted_insertionSort fileLE fs
    exact List.Pairwise.map (fun a : File => a.RelativePath) (fun a b h => h) hsorted
  · exact List.perm_insertionSort fileLE fs

/-- Witness for C2: a concrete files-inspect run returns the listing. -/
theorem files_inspect_mode_witness :
    RunWithFiles envW { InspectFiles := true } [fileA, fileB] =
      (inspectFilesRun [fileA, fileB], []) := by
  exact (files_inspect_mode envW { InspectFiles := true } [fileA, fileB]
    [fileA, fileB] rfl rfl).1

/-- When the values/eval tail of the pipeline reports an error, it
carries no files and no document set. -/
theorem afterSchema_err_empty (env : Env) (o : TemplateOptions) (fs : List File)
    (vo : List DVOverlay) (lvo : List LibraryOverlay) (schema : Schema) (e : Err)
    (h : (afterSchema env o fs vo lvo schema).Err = some e) :
    (afterSchema env o fs vo lvo schema).Files = [] ∧
    (afterSchema env o fs vo lvo schema).DocSet = none := by
  unfold afterSchema at h ⊢
  cases hv : env.valuesFn (loaderOpts o) fs vo schema with
  | error e1 => simp [hv]
  | ok p =>
    obtain ⟨values, libVals⟩ := p
    simp only [hv] at h ⊢
    by_cases hi : o.DataValuesFlags.Inspect
    · simp [hi] at h
    · simp only [hi, if_false, Bool.false_eq_true] at h ⊢
      cases he : env.evalFn (loaderOpts o) fs values (libVals ++ lvo) with
      | error e2 => simp [he]
      | ok r => simp [he] at h

/-- C3: whenever any pipeline stage (file-mark application, data-values
flag parsing, schema listing or construction, values resolution, or
evaluation) returns an error, `RunWithFiles` returns that error with
empty `Files` and empty `DocSet`; in general an erroring run never
carries a partial result. -/
theorem no_partial_output (env : Env) (o : TemplateOptions) (inFiles : List File) :
    (∀ e, env.fileMarksApply inFiles = Except.error e →
      RunWithFiles env o inFiles = ({ Err := some e }, [])) ∧
    (∀ fs e, env.fileMarksApply inFiles = Except.ok fs → o.InspectFiles = false →
      env.asOverlays o.StrictYAML = Except.error e →
      RunWithFiles env o inFiles = ({ Err := some e }, [])) ∧
    (∀ fs vo lvo e, env.fileMarksApply inFiles = Except.ok fs → o.InspectFiles = false →
      env.asOverlays o.StrictYAML = Except.ok (vo, lvo) →
      env.schemas (loaderOpts o) fs = Except.error e →
      RunWithFiles env o inFiles = ({ Err := some e }, [])) ∧
    (∀ fs vo lvo docs e, env.fileMarksApply inFiles = Except.ok fs → o.InspectFiles = false →
      env.asOverlays o.StrictYAML = Except.ok (vo, lvo) →
      env.schemas (loaderOpts o) fs = Except.ok docs →
      schemaGate env.newDocumentSchema o.SchemaEnabled docs = Except.error e →
      RunWithFiles env o inFiles = ({ Err := some e }, [])) ∧
    (∀ fs vo lvo docs schema warns e,
      env.fileMarksApply inFiles = Except.ok fs → o.InspectFiles = false →
      env.asOverlays o.StrictYAML = Except.ok (vo, lvo) →
      env.schemas (loaderOpts o) fs = Except.ok docs →
      schemaGate env.newDocumentSchema o.SchemaEnabled docs = Except.ok (schema, warns) →
      env.valuesFn (loaderOpts o) fs vo schema = Except.error e →
      RunWithFiles env o inFiles = ({ Err := some e }, warns)) ∧
    (∀ fs vo lvo docs schema warns values libVals e,
      env.fileMarksApply inFiles = Except.ok fs → o.InspectFiles = false →
      env.asOverlays o.StrictYAML = Except.ok (vo, lvo) →
      env.schemas (loaderOpts o) fs = Except.ok docs →
      schemaGate env.newDocumentSchema o.SchemaEnabled docs = Except.ok (schema, warns) →
      env.valuesFn (loaderOpts o) fs vo schema = Except.ok (values, libVals) →
      o.DataValuesFlags.Inspect = false →
      env.evalFn (loaderOpts o) fs values (libVals ++ lvo) = Except.error e →
      RunWithFiles env o inFiles = ({ Err := some e }, warns)) ∧
    (∀ e, (RunWithFiles env o inFiles).1.Err = some e →
      (RunWithFiles env o inFiles).1.Files = [] ∧
      (RunWithFiles env o inFiles).1.DocSet = none) := by
  refine ⟨?_, ?_, ?_, ?_, ?_, ?_, ?_⟩
  · intro e hm
    simp [RunWithFiles, hm]
  · intro fs e hm hins ho
    simp [RunWithFiles, hm, hins, ho]
  · intro fs vo lvo e hm hins ho hs
    simp [RunWithFiles, hm, hins, ho, hs]
  · intro fs vo lvo docs e hm hins ho hs hg
    simp [RunWithFiles, hm, hins, ho, hs, hg]
  · intro fs vo lvo docs schema warns e hm hins ho hs hg hv
    simp [RunWithFiles, hm, hins, ho, hs, hg, afterSchema, hv]
  · intro fs vo lvo docs schema warns values libVals e hm hins ho hs hg hv hnoi he
    simp [RunWithFiles, hm, hins, ho, hs, hg, afterSchema, hv, hnoi, he]
  · intro e
    cases hm : env.fileMarksApply inFiles with
    | error e1 => simp [RunWithFiles, hm]
    | ok fs =>
      cases hins : o.InspectFiles with
      | true => simp [RunWithFiles, hm, hins, inspectFilesRun]
      | false =>
        cases ho : env.asOverlays o.StrictYAML with
        | error e1 => simp [RunWithFiles, hm, hins, ho]
        | ok p =>
          obtain ⟨vo, lvo⟩ := p
          cases hs : env.schemas (loaderOpts o) fs with
          | error e1 => simp [RunWithFiles, hm, hins, ho, hs]
          | ok docs =>
            cases hg : schemaGate env.newDocumentSchema o.SchemaEnabled docs with
            | error e1 => simp [RunWithFiles, hm, hins, ho, hs, hg]
            | ok q =>
              obtain ⟨schema, warns⟩ := q
              simp only [RunWithFiles, hm, hins, ho, hs, hg, Bool.false_eq_true,
                if_false]
              intro h
              exact afterSchema_err_empty env o fs vo lvo schema e h

/-- An environment whose file-mark application fails. -/
def envMarksFail : Env :=
  { envW with fileMarksApply := fun _ => Except.error "bad mark" }

/-- An environment whose data-values flag parsing fails. -/
def envOverlaysFail : Env :=
  { envW with asOverlays := fun _ => Except.error "bad flag" }

/-- Witness for C3: a concrete run whose file-mark stage fails returns
exactly that error and nothing else. -/
theorem no_partial_output_witness :
    RunWithFiles envMarksFail {} [fileA] = ({ Err := some "bad mark" }, []) := by
  exact (no_partial_output envMarksFail {} [fileA]).1 "bad mark" rfl

/-- C9: with `InspectFiles` set, the run does not depend on the
data-values flag parser at all (it is never consulted), so a run whose
flag parsing would fail still succeeds with the listing; a file-mark
application error, however, still aborts the run. -/
theorem files_inspect_skips_overlays (env : Env) (o : TemplateOptions)
    (inFiles : List File) (hins : o.InspectFiles = true) :
    (∀ g, RunWithFiles { env with asOverlays := g } o inFiles =
      RunWithFiles env o inFiles) ∧
    (∀ fs e, env.fileMarksApply inFiles = Except.ok fs →
      env.asOverlays o.StrictYAML = Except.error e →
      RunWithFiles env o inFiles = (inspectFilesRun fs, []) ∧
      (RunWithFiles env o inFiles).1.Err = none) ∧
    (∀ e, env.fileMarksApply inFiles = Except.error e →
      RunWithFiles env o inFiles = ({ Err := some e }, [])) := by
  refine ⟨?_, ?_, ?_⟩
  · intro g
    unfold RunWithFiles
    cases hm : env.fileMarksApply inFiles with
    | error e => rfl
    | ok fs => simp [hins]
  · intro fs e hm ho
    have hrun : RunWithFiles env o inFiles = (inspectFilesRun fs, []) := by
      simp [RunWithFiles, hm, hins]
    exact ⟨hrun, by rw [hrun]; rfl⟩
  · intro e hm
    simp [RunWithFiles, hm]

/-- Witness for C9: a files-inspect run with failing flag parsing still
returns the successful listing. -/
theorem files_inspect_skips_overlays_witness :
    RunWithFiles envOverlaysFail { InspectFiles := true } [fileA] =
      (inspectFilesRun [fileA], []) := by
  exact ((files_inspect_skips_overlays envOverlaysFail { InspectFiles := true }
    [fileA] rfl).2.1 [fileA] "bad flag" rfl rfl).1

/-- C4: when the root scope yields more than one schema document, the run
fails with a configuration error (the schema listing itself rejects the
input; modelled from the spec since `LibraryLoader.Schemas` is outside
the given source tree). -/
theorem multiple_schema_docs_error (env : Env) (o : TemplateOptions)
    (inFiles fs : List File) (vo : List DVOverlay) (lvo : List LibraryOverlay)
    (hschemas : env.schemas = fun _ l => Schemas l)
    (hmarks : env.fileMarksApply inFiles = Except.ok fs)
    (hins : o.InspectFiles = false)
    (hov : env.asOverlays o.StrictYAML = Except.ok (vo, lvo))
    (hmulti : 1 < (fs.filterMap (fun f => f.SchemaDocId)).length) :
    RunWithFiles env o inFiles =
      ({ Err := some "multiple schema documents found at the root scope" }, []) := by
  have hs : env.schemas (loaderOpts o) fs =
      Except.error "multiple schema documents found at the root scope" := by
    rw [hschemas]
    simp [Schemas, hmulti]
  simp [RunWithFiles, hmarks, hins, hov, hs]

/-- Witness for C4: two schema-document files at the root make a concrete
run fail with the configuration error. -/
theorem multiple_schema_docs_error_witness :
    RunWithFiles envW {} [fileB, fileC] =
      ({ Err := some "multiple schema documents found at the root scope" }, []) := by
  exact multiple_schema_docs_error envW {} [fileB, fileC] [fileB, fileC]
    [1] [7, 8] rfl rfl rfl rfl (by decide)

/-- In values-inspect mode the evaluator never influences `afterSchema`. -/
theorem afterSchema_evalFn_irrelevant (env : Env)
    (g : TemplateLoaderOpts → List File → ValuesBlock → List LibraryOverlay →
      Except Err EvalResult)
    (o : TemplateOptions) (fs : List File) (vo : List DVOverlay)
    (lvo : List LibraryOverlay) (schema : Schema)
    (hinsp : o.DataValuesFlags.Inspect = true) :
    afterSchema { env with evalFn := g } o fs vo lvo schema =
      afterSchema env o fs vo lvo schema := by
  unfold afterSchema
  have hproj : ({ env with evalFn := g } : Env).valuesFn = env.valuesFn := rfl
  rw [hproj]
  cases hv : env.valuesFn (loaderOpts o) fs vo schema with
  | error e => rfl
  | ok p =>
    obtain ⟨values, libVals⟩ := p
    simp [hinsp]

/-- In values-inspect mode the evaluator never influences the whole run. -/
theorem runWithFiles_evalFn_irrelevant (env : Env)
    (g : TemplateLoaderOpts → List File → ValuesBlock → List LibraryOverlay →
      Except Err EvalResult)
    (o : TemplateOptions) (inFiles : List File)
    (hinsp : o.DataValuesFlags.Inspect = true) :
    RunWithFiles { env with evalFn := g } o inFiles = RunWithFiles env o inFiles := by
  unfold RunWithFiles
  have h1 : ({ env with evalFn := g } : Env).fileMarksApply = env.fileMarksApply := rfl
  have h2 : ({ env with evalFn := g } : Env).asOverlays = env.asOverlays := rfl
  have h3 : ({ env with evalFn := g } : Env).schemas = env.schemas := rfl
  have h4 : ({ env with evalFn := g } : Env).newDocumentSchema =
    env.newDocumentSchema := rfl
  rw [h1, h2, h3, h4]
  split
  · rfl
  · rename_i fs hfs
    split
    · rfl
    · split
      · rfl
      · rename_i vo lvo hvo
        split
        · rfl
        · rename_i docs hdocs
          split
          · rfl
          · rename_i schema warns hgw
            exact congrArg (fun x => (x, warns))
              (afterSchema_evalFn_irrelevant env g o fs vo lvo schema hinsp)

/-- C5: in values-inspect mode (data-values inspect flag set, files-inspect
not set), evaluation is skipped (the run does not depend on the evaluator)
and the result is a document set containing exactly one document, the root
scope's resolved values tree; when schema documents are present and the
schema flag is enabled, that resolution received the typed schema. -/
theorem values_inspect_mode (env : Env) (o : TemplateOptions)
    (inFiles fs : List File) (vo : List DVOverlay) (lvo : List LibraryOverlay)
    (docs : List SchemaDoc) (schema : Schema) (warns : List String)
    (values : ValuesBlock) (libVals : List LibraryOverlay)
    (hmarks : env.fileMarksApply inFiles = Except.ok fs)
    (hins : o.InspectFiles = false)
    (hov : env.asOverlays o.StrictYAML = Except.ok (vo, lvo))
    (hs : env.schemas (loaderOpts o) fs = Except.ok docs)
    (hgate : schemaGate env.newDocumentSchema o.SchemaEnabled docs =
      Except.ok (schema, warns))
    (hvals : env.valuesFn (loaderOpts o) fs vo schema = Except.ok (values, libVals))
    (hinsp : o.DataValuesFlags.Inspect = true) :
    RunWithFiles env o inFiles =
      (({ DocSet := some { items := [values.Doc] } } : TemplateOutput), warns) ∧
    (∀ g, RunWithFiles { env with evalFn := g } o inFiles =
      RunWithFiles env o inFiles) ∧
    (docs ≠ [] → o.SchemaEnabled = true → ∃ ts, schema = Schema.typed ts) := by
  refine ⟨?_, ?_, ?_⟩
  · simp [RunWithFiles, hmarks, hins, hov, hs, hgate, afterSchema, hvals, hinsp]
  · intro g
    exact runWithFiles_evalFn_irrelevant env g o inFiles hinsp
  · intro hne he
    cases docs with
    | nil => exact absurd rfl hne
    | cons d rest =>
      simp only [schemaGate, he, if_true] at hgate
      cases hnds : env.newDocumentSchema d with
      | error e => rw [hnds] at hgate; simp at hgate
      | ok ts =>
        rw [hnds] at hgate
        simp only [Except.ok.injEq, Prod.mk.injEq] at hgate
        exact ⟨ts, hgate.1.symm⟩

/-- Witness for C5: a concrete values-inspect run returns the resolved
values document and the schema warning. -/
theorem values_inspect_mode_witness :
    RunWithFiles envW { DataValuesFlags := { Inspect := true } } [fileB] =
      (({ DocSet := some { items := [{ value := Value.scalar "vals" }] } } :
        TemplateOutput), [schemaWarningText]) := by
  exact (values_inspect_mode envW { DataValuesFlags := { Inspect := true } }
    [fileB] [fileB] [1] [7, 8] [5] Schema.anySchema [schemaWarningText]
    { Doc := { value := Value.scalar "vals" } } [3, 4]
    rfl rfl rfl rfl rfl rfl rfl).1

/-- C7: the three output modes are mutually exclusive by construction:
for every flag configuration exactly one mode is active (files-inspect
taking the first branch, values-inspect the second, normal otherwise),
and no configuration selects more than one — in particular setting both
inspect flags runs files-inspect successfully, with no runtime conflict
check or error. -/
theorem modes_mutually_exclusive (env : Env) (o : TemplateOptions)
    (inFiles fs : List File)
    (hmarks : env.fileMarksApply inFiles = Except.ok fs) :
    (activeMode o = Mode.filesInspect ↔ o.InspectFiles = true) ∧
    (activeMode o = Mode.valuesInspect ↔
      (o.InspectFiles = false ∧ o.DataValuesFlags.Inspect = true)) ∧
    (activeMode o = Mode.normal ↔
      (o.InspectFiles = false ∧ o.DataValuesFlags.Inspect = false)) ∧
    (o.InspectFiles = true →
      RunWithFiles env o inFiles = (inspectFilesRun fs, []) ∧
      (RunWithFiles env o inFiles).1.Err = none) := by
  refine ⟨?_, ?_, ?_, ?_⟩
  · cases h1 : o.InspectFiles <;> cases h2 : o.DataValuesFlags.Inspect <;>
      simp [activeMode, h1, h2]
  · cases h1 : o.InspectFiles <;> cases h2 : o.DataValuesFlags.Inspect <;>
      simp [activeMode, h1, h2]
  · cases h1 : o.InspectFiles <;> cases h2 : o.DataValuesFlags.Inspect <;>
      simp [activeMode, h1, h2]
  · intro hins
    have hrun : RunWithFiles env o inFiles = (inspectFilesRun fs, []) := by
      simp [RunWithFiles, hmarks, hins]
    exact ⟨hrun, by rw [hrun]; rfl⟩

/-- Witness for C7: with both inspect flags set, a concrete run performs
files-inspect with no error. -/
theorem modes_mutually_exclusive_witness :
    RunWithFiles envW { InspectFiles := true, DataValuesFlags := { Inspect := true } }
      [fileA] = (inspectFilesRun [fileA], []) := by
  exact ((modes_mutually_exclusive envW
    { InspectFiles := true, DataValuesFlags := { Inspect := true } }
    [fileA] [fileA] rfl).2.2.2 rfl).1

/-- C10: in the list of library values passed to evaluation, the
flag-parsed per-library overlays are appended after the library values
returned by the root values resolution, both sublists keeping their
internal order (the prefix of the appended list is exactly the
scope-derived values, the suffix exactly the flag overlays). -/
theorem library_overlays_appended (env : Env) (o : TemplateOptions)
    (inFiles fs : List File) (vo : List DVOverlay) (lvo : List LibraryOverlay)
    (docs : List SchemaDoc) (schema : Schema) (warns : List String)
    (values : ValuesBlock) (libVals : List LibraryOverlay)
    (hmarks : env.fileMarksApply inFiles = Except.ok fs)
    (hins : o.InspectFiles = false)
    (hov : env.asOverlays o.StrictYAML = Except.ok (vo, lvo))
    (hs : env.schemas (loaderOpts o) fs = Except.ok docs)
    (hgate : schemaGate env.newDocumentSchema o.SchemaEnabled docs =
      Except.ok (schema, warns))
    (hvals : env.valuesFn (loaderOpts o) fs vo schema = Except.ok (values, libVals))
    (hnoinsp : o.DataValuesFlags.Inspect = false) :
    RunWithFiles env o inFiles =
      ((match env.evalFn (loaderOpts o) fs values (libVals ++ lvo) with
        | Except.error e => ({ Err := some e } : TemplateOutput)
        | Except.ok r =>
          ({ Files := r.Files, DocSet := some r.DocSet } : TemplateOutput)), warns) ∧
    (libVals ++ lvo).take libVals.length = libVals ∧
    (libVals ++ lvo).drop libVals.length = lvo := by
  refine ⟨?_, ?_, ?_⟩
  · simp only [RunWithFiles, hmarks, hins, Bool.false_eq_true, if_false, hov, hs,
      hgate, afterSchema, hvals, hnoinsp]
  · exact List.take_left libVals lvo
  · exact List.drop_left libVals lvo

/-- Witness for C10: a concrete normal-mode run evaluates with the
appended overlay list. -/
theorem library_overlays_appended_witness :
    RunWithFiles envW {} [fileA] =
      (({ Files := [{ path := "out.yml", content := "rendered" }]
          DocSet := some { items := [] } } : TemplateOutput), []) ∧
    ([3, 4] ++ [7, 8] : List LibraryOverlay).take 2 = [3, 4] := by
  have h := library_overlays_appended envW {} [fileA] [fileA] [1] [7, 8] []
    Schema.anySchema [] { Doc := { value := Value.scalar "vals" } } [3, 4]
    rfl rfl rfl rfl rfl rfl rfl
  exact ⟨h.1, h.2.1⟩

end Ytt
